import Mathlib

/-!
Verification of the result-aggregation core (`parseUtil.ts`) of a structural
data-validation engine.  The definitions below are a shallow embedding of the
TypeScript source: each `def` transcribes the corresponding exported function;
imperative loops become structural recursions that thread the mutable state
(the status tracker cell and the accumulating output) explicitly, returning the
tracker's final contents alongside the function's return value.
-/

namespace ParseUtil

/-- The tri-state status stored in a `ParseStatus` tracker cell:
the string union `"aborted" | "dirty" | "valid"` from the source. -/
inductive ParseStatusValue : Type where
  | valid : ParseStatusValue
  | dirty : ParseStatusValue
  | aborted : ParseStatusValue
deriving DecidableEq, Repr

/-- `ParseStatus.dirty()`: `if (this.value === "valid") this.value = "dirty"`.
Embedded as a function from the cell's old contents to its new contents. -/
def ParseStatus.dirty : ParseStatusValue → ParseStatusValue
  | .valid => .dirty
  | s => s

/-- `ParseStatus.abort()`: `if (this.value !== "aborted") this.value = "aborted"`.
Either way the cell afterwards holds `"aborted"`. -/
def ParseStatus.abort : ParseStatusValue → ParseStatusValue
  | .aborted => .aborted
  | _ => .aborted

/-- `SyncParseReturnType<T> = OK<T> | DIRTY<T> | INVALID`:
`OK(v) = {status:"valid", value:v}`, `DIRTY(v) = {status:"dirty", value:v}`,
`INVALID = {status:"aborted"}` (the frozen singleton, carrying no value). -/
inductive SyncParseReturnType (V : Type) : Type where
  | ok (value : V) : SyncParseReturnType V
  | dirty (value : V) : SyncParseReturnType V
  | invalid : SyncParseReturnType V
deriving DecidableEq, Repr

/-- The `status` field of a `SyncParseReturnType` object. -/
def SyncParseReturnType.status {V : Type} : SyncParseReturnType V → ParseStatusValue
  | .ok _ => .valid
  | .dirty _ => .dirty
  | .invalid => .aborted

/-- The `value` field of a `SyncParseReturnType` object (`INVALID` has none). -/
def SyncParseReturnType.payload {V : Type} : SyncParseReturnType V → Option V
  | .ok v => some v
  | .dirty v => some v
  | .invalid => none

/-- `isAborted = (x) => x.status === "aborted"`. -/
def isAborted {V : Type} (x : SyncParseReturnType V) : Bool :=
  x.status == ParseStatusValue.aborted

/-- `isDirty = (x) => x.status === "dirty"`. -/
def isDirty {V : Type} (x : SyncParseReturnType V) : Bool :=
  x.status == ParseStatusValue.dirty

/-- `isValid = (x) => x.status === "valid"`. -/
def isValid {V : Type} (x : SyncParseReturnType V) : Bool :=
  x.status == ParseStatusValue.valid

/-- The object a merger returns: `INVALID` (status `"aborted"`, no `value`
property, modelled by `value = none`) or `{status: tracker.value, value: out}`. -/
structure MergeResult (V : Type) : Type where
  status : ParseStatusValue
  value : Option V
deriving DecidableEq, Repr

/-- The loop of `mergeArray`, threading the tracker cell, the loop index `i`,
the accumulated `arrayValue` and the `stripped` flag.  The third component of
the return is `none` exactly when the loop exits through `return INVALID`. -/
def mergeArrayGo {V : Type} (status : ParseStatusValue) (stripInvalidFrom : Option Nat)
    (i : Nat) (results : List (SyncParseReturnType V)) (arrayValue : List V)
    (stripped : Bool) : ParseStatusValue × Bool × Option (List V) :=
  match results with
  | [] => (status, stripped, some arrayValue)
  | s :: rest =>
    match s with
    | .invalid =>
      match stripInvalidFrom with
      | none => (status, stripped, none)
      | some k =>
        if i < k then (status, stripped, none)
        else mergeArrayGo (ParseStatus.dirty status) stripInvalidFrom (i + 1) rest arrayValue true
    | .ok v => mergeArrayGo status stripInvalidFrom (i + 1) rest (arrayValue ++ [v]) stripped
    | .dirty v =>
      mergeArrayGo (ParseStatus.dirty status) stripInvalidFrom (i + 1) rest
        (arrayValue ++ [v]) stripped

/-- `mergeArray(status, results, stripInvalidFrom?, minLength?)`.
`strip = typeof stripInvalidFrom === "number"` is modelled by the `Option`;
the post-loop `if (stripped && minLength && arrayValue.length < minLength)`
keeps JavaScript truthiness: `minLength` absent or `0` is falsy.
The first component of the returned pair is the tracker cell's final contents
(the source mutates the caller's tracker in place). -/
def mergeArray {V : Type} (status : ParseStatusValue) (results : List (SyncParseReturnType V))
    (stripInvalidFrom : Option Nat) (minLength : Option Nat) :
    ParseStatusValue × MergeResult (List V) :=
  match mergeArrayGo status stripInvalidFrom 0 results [] false with
  | (st, _, none) => (st, ⟨ParseStatusValue.aborted, none⟩)
  | (st, stripped, some arrayValue) =>
    match minLength with
    | some m =>
      if stripped = true ∧ m ≠ 0 ∧ arrayValue.length < m
      then (st, ⟨ParseStatusValue.aborted, none⟩)
      else (st, ⟨st, some arrayValue⟩)
    | none => (st, ⟨st, some arrayValue⟩)

/-- JavaScript values stored under object keys: `none` models `undefined`
(the "absent" sentinel tested by `typeof value.value !== "undefined"`),
`some n` models any present value. -/
abbrev JVal : Type := Option Nat

/-- A JavaScript object as an insertion-ordered association list of own
properties (string key, value).  Assignment to an existing key updates it in
place; assignment to a fresh key appends. -/
abbrev JsObj : Type := List (String × JVal)

/-- `obj[k] = v` on a plain object: overwrite the existing entry for `k`
in place, or append a new entry. -/
def setKey : JsObj → String → JVal → JsObj
  | [], k, v => [(k, v)]
  | (k0, v0) :: rest, k, v =>
    if k0 = k then (k, v) :: rest else (k0, v0) :: setKey rest k v

/-- Own-property lookup on a plain object. -/
def lookupKey : JsObj → String → Option JVal
  | [], _ => none
  | (k0, v0) :: rest, k => if k0 = k then some v0 else lookupKey rest k

/-- `Object.prototype.hasOwnProperty` on the modelled object. -/
def hasKey (o : JsObj) (k : String) : Bool :=
  (lookupKey o k).isSome

/-- One element of `mergeObjectSync`'s `pairs` argument:
`{key, value, alwaysSet?}`.  An absent `alwaysSet` property and `false` behave
identically (both falsy), so the optional boolean is modelled as a `Bool`. -/
structure ObjectPair : Type where
  key : SyncParseReturnType String
  value : SyncParseReturnType JVal
  alwaysSet : Bool
deriving DecidableEq, Repr

/-- The guarded write of `mergeObjectSync`'s loop body:
`if (key.value !== "__proto__" && (typeof value.value !== "undefined" || pair.alwaysSet))
  finalObject[key.value] = value.value`. -/
def writeStep (finalObject : JsObj) (k : String) (v : JVal) (alwaysSet : Bool) : JsObj :=
  if k ≠ "__proto__" ∧ (v.isSome = true ∨ alwaysSet = true)
  then setKey finalObject k v
  else finalObject

/-- The loop of `mergeObjectSync`.  Mirrors the statement order of the source:
both `status === "aborted"` checks run (and `return INVALID`, modelled by
`none`) before any `status.dirty()` call of the same iteration, so a pair with
a dirty key and an aborted value exits without marking the tracker. -/
def mergeObjectSyncGo (status : ParseStatusValue) (finalObject : JsObj) :
    List ObjectPair → ParseStatusValue × Option JsObj
  | [] => (status, some finalObject)
  | p :: rest =>
    match p.key, p.value with
    | .invalid, _ => (status, none)
    | .ok _, .invalid => (status, none)
    | .dirty _, .invalid => (status, none)
    | .ok k, .ok v => mergeObjectSyncGo status (writeStep finalObject k v p.alwaysSet) rest
    | .ok k, .dirty v =>
      mergeObjectSyncGo (ParseStatus.dirty status) (writeStep finalObject k v p.alwaysSet) rest
    | .dirty k, .ok v =>
      mergeObjectSyncGo (ParseStatus.dirty status) (writeStep finalObject k v p.alwaysSet) rest
    | .dirty k, .dirty v =>
      mergeObjectSyncGo (ParseStatus.dirty (ParseStatus.dirty status))
        (writeStep finalObject k v p.alwaysSet) rest

/-- `mergeObjectSync(status, pairs)`; the first component of the result is the
tracker cell's final contents. -/
def mergeObjectSync (status : ParseStatusValue) (pairs : List ObjectPair) :
    ParseStatusValue × MergeResult JsObj :=
  match mergeObjectSyncGo status [] pairs with
  | (st, none) => (st, ⟨ParseStatusValue.aborted, none⟩)
  | (st, some finalObject) => (st, ⟨st, some finalObject⟩)

/-- A deferred (`Promise`-wrapped) computation under the single-threaded
cooperative model: awaiting it appends `emits` (abstract identifiers of the
issues its validator records while running) to the shared diagnostics trace and
yields `result`. -/
structure Deferred (α : Type) : Type where
  emits : List Nat
  result : α
deriving DecidableEq, Repr

/-- One element of `mergeObjectAsync`'s `pairs` argument.  Its TypeScript type
lists only `key` and `value`, but callers may structurally attach an
`alwaysSet` property (as the synchronous pairs carry); the field is kept here
to observe what `mergeObjectAsync` does with it. -/
structure AsyncObjectPair : Type where
  key : Deferred (SyncParseReturnType String)
  value : Deferred (SyncParseReturnType JVal)
  alwaysSet : Bool
deriving DecidableEq, Repr

/-- The loop of `mergeObjectAsync`: `const key = await pair.key; const value =
await pair.value; syncPairs.push({key, value})`.  The awaits run in pair order,
key before value, so the trace accumulates in that order; the pushed object has
no `alwaysSet` property (falsy, modelled `false`). -/
def mergeObjectAsyncGo (emitted : List Nat) (syncPairs : List ObjectPair) :
    List AsyncObjectPair → List Nat × List ObjectPair
  | [] => (emitted, syncPairs)
  | p :: rest =>
    mergeObjectAsyncGo (emitted ++ p.key.emits ++ p.value.emits)
      (syncPairs ++ [⟨p.key.result, p.value.result, false⟩]) rest

/-- `mergeObjectAsync(status, pairs)`: resolve all pairs sequentially, then
delegate to `mergeObjectSync`.  Returns the accumulated await-trace alongside
the delegated result. -/
def mergeObjectAsync (status : ParseStatusValue) (pairs : List AsyncObjectPair) :
    List Nat × (ParseStatusValue × MergeResult JsObj) :=
  match mergeObjectAsyncGo [] [] pairs with
  | (emitted, syncPairs) => (emitted, mergeObjectSync status syncPairs)

/-- A path component: `string | number`. -/
inductive ParsePathComponent : Type where
  | str (s : String) : ParsePathComponent
  | num (n : Nat) : ParsePathComponent
deriving DecidableEq, Repr

/-- `ParsePath = ParsePathComponent[]`. -/
abbrev ParsePath : Type := List ParsePathComponent

/-- `IssueData`: raw issue data supplied by a validator.  The machine-readable
`code` and kind-specific metadata are abstracted into one tag; `path` and
`message` are the optional fields `makeIssue` inspects. -/
structure IssueData : Type where
  code : Nat
  path : Option ParsePath
  message : Option String
deriving DecidableEq, Repr

/-- `fullIssue = {...issueData, path: fullPath}`: the object handed to each
error map (its `message` field is still the optional raw one). -/
structure FullIssue : Type where
  code : Nat
  path : ParsePath
  message : Option String
deriving DecidableEq, Repr

/-- The finished `ZodIssue`: path finalized, message resolved. -/
structure ZodIssue : Type where
  code : Nat
  path : ParsePath
  message : String
deriving DecidableEq, Repr

/-- The second argument an error map receives: `{data, defaultError}`. -/
structure ErrorMapCtx : Type where
  data : JVal
  defaultError : String

/-- An error map's return value: `{message}`. -/
structure ErrorMapReturn : Type where
  message : String

/-- `ZodErrorMap`: an error-formatting policy. -/
abbrev ZodErrorMap : Type := FullIssue → ErrorMapCtx → ErrorMapReturn

/-- `makeIssue({data, path, errorMaps, issueData})`.  The list may structurally
contain absent entries (the source filters with `!!m`), hence
`List (Option ZodErrorMap)`; present maps are folded lowest-priority first
(`filter`, `slice`, `reverse`, then the accumulation loop). -/
def makeIssue (data : JVal) (path : ParsePath) (errorMaps : List (Option ZodErrorMap))
    (issueData : IssueData) : ZodIssue :=
  let fullPath := path ++ issueData.path.getD []
  let fullIssue : FullIssue := ⟨issueData.code, fullPath, issueData.message⟩
  match issueData.message with
  | some m => ⟨issueData.code, fullPath, m⟩
  | none =>
    let maps := (errorMaps.filterMap id).reverse
    ⟨issueData.code, fullPath,
      maps.foldl (fun errorMessage m => (m fullIssue ⟨data, errorMessage⟩).message) ""⟩

/-- `ParseContext.common`: the run-wide shared state. -/
structure ParseCommon : Type where
  issues : List ZodIssue
  contextualErrorMap : Option ZodErrorMap
  async : Bool
  strict : Bool

/-- `ParseContext`, restricted to the fields `addIssueToContext` reads
(`common`, `path`, `schemaErrorMap`, `data`; the `parent` back-reference and
`parsedType` are never consulted by the embedded operations). -/
structure ParseContext : Type where
  common : ParseCommon
  path : ParsePath
  schemaErrorMap : Option ZodErrorMap
  data : JVal

/-- Modelled from the spec: `getErrorMap` lives in `errors.ts`, which is not
under `src/`.  Per the spec, a process-wide override policy may be installed;
when none is installed, the process-wide default policy is returned.  The
installed override is threaded explicitly as an `Option`; the source's
identity test `overrideMap === defaultErrorMap` corresponds to the override
not being installed. -/
def getErrorMap (installedOverrideMap : Option ZodErrorMap)
    (defaultErrorMap : ZodErrorMap) : ZodErrorMap :=
  installedOverrideMap.getD defaultErrorMap

/-- `addIssueToContext(ctx, issueData)`: assemble the error-map chain
(contextual, then schema-bound, then global override, then — unless the
override slot already holds it — the global default), filter out the absent
ones, build the issue and append it to the shared diagnostics list.  The
ambient override installation and the default map are threaded explicitly. -/
def addIssueToContext (installedOverrideMap : Option ZodErrorMap)
    (defaultErrorMap : ZodErrorMap) (ctx : ParseContext) (issueData : IssueData) :
    ParseContext :=
  let overrideMap := getErrorMap installedOverrideMap defaultErrorMap
  let errorMaps : List (Option ZodErrorMap) :=
    ([ctx.common.contextualErrorMap, ctx.schemaErrorMap, some overrideMap,
      if installedOverrideMap.isSome then some defaultErrorMap else none].filterMap id).map some
  let issue := makeIssue ctx.data ctx.path errorMaps issueData
  ⟨⟨ctx.common.issues ++ [issue], ctx.common.contextualErrorMap, ctx.common.async,
    ctx.common.strict⟩, ctx.path, ctx.schemaErrorMap, ctx.data⟩

/-- A call on a `ParseStatus` tracker: `dirty()` or `abort()`. -/
inductive TrackerOp : Type where
  | dirtyOp : TrackerOp
  | abortOp : TrackerOp
deriving DecidableEq, Repr

/-- Run a sequence of tracker calls on a cell, left to right. -/
def runOps : List TrackerOp → ParseStatusValue → ParseStatusValue
  | [], s => s
  | .dirtyOp :: rest, s => runOps rest (ParseStatus.dirty s)
  | .abortOp :: rest, s => runOps rest (ParseStatus.abort s)

/-- Specification-side: the tracker update one `mergeArray` iteration performs
on a non-skipped-past element — `status.dirty()` for a dirty element and for a
stripped invalid element, nothing for an ok element. -/
def trackStep {V : Type} (s : ParseStatusValue) (r : SyncParseReturnType V) :
    ParseStatusValue :=
  match r with
  | .ok _ => s
  | _ => ParseStatus.dirty s

/-- Specification-side: the tracker update one non-aborting `mergeObjectSync`
iteration performs (`status.dirty()` once per dirty side). -/
def objTrackStep (s : ParseStatusValue) (p : ObjectPair) : ParseStatusValue :=
  let s1 := if isDirty p.key then ParseStatus.dirty s else s
  if isDirty p.value then ParseStatus.dirty s1 else s1

/-- Specification-side: the object update one non-aborting `mergeObjectSync`
iteration performs. -/
def objWriteFold (finalObject : JsObj) (p : ObjectPair) : JsObj :=
  match p.key.payload, p.value.payload with
  | some k, some v => writeStep finalObject k v p.alwaysSet
  | _, _ => finalObject

/-- Specification-side: "a `minLength` argument is specified and `len` is
below it" (the claim's wording of the post-loop check). -/
def minLengthSpecifiedBelow (minLength : Option Nat) (len : Nat) : Bool :=
  match minLength with
  | some m => decide (len < m)
  | none => false

/-! Unfolding equations for the loop embeddings. -/

@[simp]
theorem isAborted_ok {V : Type} (v : V) : isAborted (SyncParseReturnType.ok v) = false := rfl

@[simp]
theorem isAborted_dirty {V : Type} (v : V) : isAborted (SyncParseReturnType.dirty v) = false := rfl

@[simp]
theorem isAborted_invalid {V : Type} :
    isAborted (SyncParseReturnType.invalid : SyncParseReturnType V) = true := rfl

@[simp]
theorem isDirty_ok {V : Type} (v : V) : isDirty (SyncParseReturnType.ok v) = false := rfl

@[simp]
theorem isDirty_dirty {V : Type} (v : V) : isDirty (SyncParseReturnType.dirty v) = true := rfl

@[simp]
theorem isDirty_invalid {V : Type} :
    isDirty (SyncParseReturnType.invalid : SyncParseReturnType V) = false := rfl

@[simp]
theorem payload_ok {V : Type} (v : V) :
    (SyncParseReturnType.ok v).payload = some v := rfl

@[simp]
theorem payload_dirty {V : Type} (v : V) :
    (SyncParseReturnType.dirty v).payload = some v := rfl

@[simp]
theorem payload_invalid {V : Type} :
    (SyncParseReturnType.invalid : SyncParseReturnType V).payload = none := rfl

theorem mergeArrayGo_nil {V : Type} (st : ParseStatusValue) (sf : Option Nat) (i : Nat)
    (acc : List V) (b : Bool) : mergeArrayGo st sf i [] acc b = (st, b, some acc) := rfl

theorem mergeArrayGo_cons_ok {V : Type} (st : ParseStatusValue) (sf : Option Nat) (i : Nat)
    (v : V) (rest : List (SyncParseReturnType V)) (acc : List V) (b : Bool) :
    mergeArrayGo st sf i (SyncParseReturnType.ok v :: rest) acc b =
      mergeArrayGo st sf (i + 1) rest (acc ++ [v]) b := rfl

theorem mergeArrayGo_cons_dirty {V : Type} (st : ParseStatusValue) (sf : Option Nat) (i : Nat)
    (v : V) (rest : List (SyncParseReturnType V)) (acc : List V) (b : Bool) :
    mergeArrayGo st sf i (SyncParseReturnType.dirty v :: rest) acc b =
      mergeArrayGo (ParseStatus.dirty st) sf (i + 1) rest (acc ++ [v]) b := rfl

theorem mergeArrayGo_cons_invalid_none {V : Type} (st : ParseStatusValue) (i : Nat)
    (rest : List (SyncParseReturnType V)) (acc : List V) (b : Bool) :
    mergeArrayGo st none i (SyncParseReturnType.invalid :: rest) acc b = (st, b, none) := rfl

theorem mergeArrayGo_cons_invalid_some {V : Type} (st : ParseStatusValue) (k i : Nat)
    (rest : List (SyncParseReturnType V)) (acc : List V) (b : Bool) :
    mergeArrayGo st (some k) i (SyncParseReturnType.invalid :: rest) acc b =
      if i < k then (st, b, none)
      else mergeArrayGo (ParseStatus.dirty st) (some k) (i + 1) rest acc true := rfl

/-- When every `INVALID` element sits at an index that strip-merging skips
(`stripInvalidFrom = some k` with `k ≤` the element's index), the `mergeArray`
loop runs to completion: the tracker accumulates one `dirty()` per dirty or
stripped element, the `stripped` flag records whether any element was
`INVALID`, and the output is the payloads of the non-`INVALID` elements in
order, with nothing pushed for stripped ones. -/
theorem mergeArrayGo_complete {V : Type} (rs : List (SyncParseReturnType V)) :
    ∀ (st : ParseStatusValue) (sf : Option Nat) (i : Nat) (acc : List V) (b : Bool),
    (∀ pre post, rs = pre ++ SyncParseReturnType.invalid :: post →
        ∃ k, sf = some k ∧ k ≤ i + pre.length) →
    mergeArrayGo st sf i rs acc b =
      (rs.foldl trackStep st, b || rs.any isAborted,
        some (acc ++ rs.filterMap SyncParseReturnType.payload)) := by
  induction rs with
  | nil =>
    intro st sf i acc b _
    simp [mergeArrayGo_nil]
  | cons s rest ih =>
    intro st sf i acc b h
    cases s with
    | invalid =>
      obtain ⟨k, hsf, hk⟩ := h [] rest rfl
      subst hsf
      simp only [List.length_nil, Nat.add_zero] at hk
      rw [mergeArrayGo_cons_invalid_some, if_neg (by omega)]
      rw [ih (ParseStatus.dirty st) (some k) (i + 1) acc true ?_]
      · simp [trackStep]
      · intro pre post hpp
        obtain ⟨k2, hk2, hle⟩ := h (SyncParseReturnType.invalid :: pre) post (by rw [hpp]; rfl)
        refine ⟨k2, hk2, ?_⟩
        simp only [List.length_cons] at hle
        omega
    | ok v =>
      rw [mergeArrayGo_cons_ok]
      rw [ih st sf (i + 1) (acc ++ [v]) b ?_]
      · simp [trackStep]
      · intro pre post hpp
        obtain ⟨k2, hk2, hle⟩ := h (SyncParseReturnType.ok v :: pre) post (by rw [hpp]; rfl)
        refine ⟨k2, hk2, ?_⟩
        simp only [List.length_cons] at hle
        omega
    | dirty v =>
      rw [mergeArrayGo_cons_dirty]
      rw [ih (ParseStatus.dirty st) sf (i + 1) (acc ++ [v]) b ?_]
      · simp [trackStep]
      · intro pre post hpp
        obtain ⟨k2, hk2, hle⟩ := h (SyncParseReturnType.dirty v :: pre) post (by rw [hpp]; rfl)
        refine ⟨k2, hk2, ?_⟩
        simp only [List.length_cons] at hle
        omega

/-- An `INVALID` element at an index the strip policy does not cover makes the
`mergeArray` loop exit through `return INVALID` (third component `none`). -/
theorem mergeArrayGo_abort {V : Type} (pre : List (SyncParseReturnType V)) :
    ∀ (post : List (SyncParseReturnType V)) (st : ParseStatusValue) (sf : Option Nat)
      (i : Nat) (acc : List V) (b : Bool),
    (sf = none ∨ ∃ k, sf = some k ∧ i + pre.length < k) →
    (mergeArrayGo st sf i (pre ++ SyncParseReturnType.invalid :: post) acc b).2.2 = none := by
  induction pre with
  | nil =>
    intro post st sf i acc b h
    rcases h with rfl | ⟨k, rfl, hk⟩
    · simp [mergeArrayGo_cons_invalid_none]
    · simp only [List.nil_append, List.length_nil] at hk ⊢
      rw [mergeArrayGo_cons_invalid_some, if_pos (by omega)]
  | cons s pre2 ih =>
    intro post st sf i acc b h
    cases s with
    | invalid =>
      rcases h with rfl | ⟨k, rfl, hk⟩
      · simp [mergeArrayGo_cons_invalid_none]
      · simp only [List.length_cons] at hk
        by_cases hik : i < k
        · rw [List.cons_append, mergeArrayGo_cons_invalid_some, if_pos hik]
        · rw [List.cons_append, mergeArrayGo_cons_invalid_some, if_neg hik]
          exact ih post (ParseStatus.dirty st) (some k) (i + 1) acc true
            (Or.inr ⟨k, rfl, by omega⟩)
    | ok v =>
      rw [List.cons_append, mergeArrayGo_cons_ok]
      refine ih post st sf (i + 1) (acc ++ [v]) b ?_
      rcases h with rfl | ⟨k, rfl, hk⟩
      · exact Or.inl rfl
      · simp only [List.length_cons] at hk
        exact Or.inr ⟨k, rfl, by omega⟩
    | dirty v =>
      rw [List.cons_append, mergeArrayGo_cons_dirty]
      refine ih post (ParseStatus.dirty st) sf (i + 1) (acc ++ [v]) b ?_
      rcases h with rfl | ⟨k, rfl, hk⟩
      · exact Or.inl rfl
      · simp only [List.length_cons] at hk
        exact Or.inr ⟨k, rfl, by omega⟩

/-- Once the `mergeArray` loop exits through `return INVALID` inside a prefix,
elements appended after that prefix are never examined. -/
theorem mergeArrayGo_append {V : Type} (rs : List (SyncParseReturnType V)) :
    ∀ (rest : List (SyncParseReturnType V)) (st : ParseStatusValue) (sf : Option Nat)
      (i : Nat) (acc : List V) (b : Bool),
    (mergeArrayGo st sf i rs acc b).2.2 = none →
    mergeArrayGo st sf i (rs ++ rest) acc b = mergeArrayGo st sf i rs acc b := by
  induction rs with
  | nil =>
    intro rest st sf i acc b h
    simp [mergeArrayGo_nil] at h
  | cons s rs2 ih =>
    intro rest st sf i acc b h
    cases s with
    | invalid =>
      cases sf with
      | none => simp [mergeArrayGo_cons_invalid_none]
      | some k =>
        by_cases hik : i < k
        · rw [List.cons_append, mergeArrayGo_cons_invalid_some, if_pos hik,
            mergeArrayGo_cons_invalid_some, if_pos hik]
        · rw [List.cons_append, mergeArrayGo_cons_invalid_some, if_neg hik,
            mergeArrayGo_cons_invalid_some, if_neg hik]
          rw [mergeArrayGo_cons_invalid_some, if_neg hik] at h
          exact ih rest (ParseStatus.dirty st) (some k) (i + 1) acc true h
    | ok v =>
      rw [List.cons_append, mergeArrayGo_cons_ok, mergeArrayGo_cons_ok]
      rw [mergeArrayGo_cons_ok] at h
      exact ih rest st sf (i + 1) (acc ++ [v]) b h
    | dirty v =>
      rw [List.cons_append, mergeArrayGo_cons_dirty, mergeArrayGo_cons_dirty]
      rw [mergeArrayGo_cons_dirty] at h
      exact ih rest (ParseStatus.dirty st) sf (i + 1) (acc ++ [v]) b h

/-- With stripping disabled, the loop aborts at the first `INVALID` element,
keeping the tracker updates of the clean prefix. -/
theorem mergeArrayGo_clean_invalid {V : Type} (rs : List (SyncParseReturnType V)) :
    ∀ (rest : List (SyncParseReturnType V)) (st : ParseStatusValue) (i : Nat)
      (acc : List V) (b : Bool),
    (∀ r ∈ rs, r ≠ SyncParseReturnType.invalid) →
    mergeArrayGo st none i (rs ++ SyncParseReturnType.invalid :: rest) acc b =
      (rs.foldl trackStep st, b, none) := by
  induction rs with
  | nil =>
    intro rest st i acc b _
    simp [mergeArrayGo_cons_invalid_none]
  | cons s rs2 ih =>
    intro rest st i acc b h
    cases s with
    | invalid => exact absurd rfl (h SyncParseReturnType.invalid (by simp))
    | ok v =>
      rw [List.cons_append, mergeArrayGo_cons_ok,
        ih rest st (i + 1) (acc ++ [v]) b (fun r hr => h r (by simp [hr]))]
      simp [trackStep]
    | dirty v =>
      rw [List.cons_append, mergeArrayGo_cons_dirty,
        ih rest (ParseStatus.dirty st) (i + 1) (acc ++ [v]) b (fun r hr => h r (by simp [hr]))]
      simp [trackStep]

/-- General short-circuit shape of the `mergeArray` loop: a processed prefix
whose `INVALID` elements are all covered by the strip policy, followed by an
`INVALID` element the policy does not cover (stripping disabled, or its index
below `stripInvalidFrom`).  The loop exits through `return INVALID` there,
keeping the tracker updates (`dirty()` per dirty or stripped element)
accumulated over the prefix. -/
theorem mergeArrayGo_prefix_abort {V : Type} (pre : List (SyncParseReturnType V)) :
    ∀ (rest : List (SyncParseReturnType V)) (st : ParseStatusValue) (sf : Option Nat)
      (i : Nat) (acc : List V) (b : Bool),
    (∀ p1 p2, pre = p1 ++ SyncParseReturnType.invalid :: p2 →
        ∃ k, sf = some k ∧ k ≤ i + p1.length) →
    (sf = none ∨ ∃ k, sf = some k ∧ i + pre.length < k) →
    mergeArrayGo st sf i (pre ++ SyncParseReturnType.invalid :: rest) acc b =
      (pre.foldl trackStep st, b || pre.any isAborted, none) := by
  induction pre with
  | nil =>
    intro rest st sf i acc b h1 h2
    rcases h2 with rfl | ⟨k, rfl, hk⟩
    · simp [mergeArrayGo_cons_invalid_none]
    · simp only [List.length_nil, Nat.add_zero] at hk
      rw [List.nil_append, mergeArrayGo_cons_invalid_some, if_pos hk]
      simp
  | cons s pre2 ih =>
    intro rest st sf i acc b h1 h2
    cases s with
    | invalid =>
      obtain ⟨k, hsf, hk⟩ := h1 [] pre2 rfl
      subst hsf
      simp only [List.length_nil, Nat.add_zero] at hk
      rw [List.cons_append, mergeArrayGo_cons_invalid_some, if_neg (by omega)]
      rw [ih rest (ParseStatus.dirty st) (some k) (i + 1) acc true ?_ ?_]
      · simp [trackStep]
      · intro p1 p2 hpp
        obtain ⟨k2, hk2, hle⟩ := h1 (SyncParseReturnType.invalid :: p1) p2 (by rw [hpp]; rfl)
        refine ⟨k2, hk2, ?_⟩
        simp only [List.length_cons] at hle
        omega
      · rcases h2 with h2 | ⟨k2, hk2, hlt⟩
        · exact absurd h2 (by simp)
        · obtain rfl : k = k2 := by injection hk2
          refine Or.inr ⟨k, rfl, ?_⟩
          simp only [List.length_cons] at hlt
          omega
    | ok v =>
      rw [List.cons_append, mergeArrayGo_cons_ok]
      rw [ih rest st sf (i + 1) (acc ++ [v]) b ?_ ?_]
      · simp [trackStep]
      · intro p1 p2 hpp
        obtain ⟨k2, hk2, hle⟩ := h1 (SyncParseReturnType.ok v :: p1) p2 (by rw [hpp]; rfl)
        refine ⟨k2, hk2, ?_⟩
        simp only [List.length_cons] at hle
        omega
      · rcases h2 with rfl | ⟨k2, rfl, hlt⟩
        · exact Or.inl rfl
        · refine Or.inr ⟨k2, rfl, ?_⟩
          simp only [List.length_cons] at hlt
          omega
    | dirty v =>
      rw [List.cons_append, mergeArrayGo_cons_dirty]
      rw [ih rest (ParseStatus.dirty st) sf (i + 1) (acc ++ [v]) b ?_ ?_]
      · simp [trackStep]
      · intro p1 p2 hpp
        obtain ⟨k2, hk2, hle⟩ := h1 (SyncParseReturnType.dirty v :: p1) p2 (by rw [hpp]; rfl)
        refine ⟨k2, hk2, ?_⟩
        simp only [List.length_cons] at hle
        omega
      · rcases h2 with rfl | ⟨k2, rfl, hlt⟩
        · exact Or.inl rfl
        · refine Or.inr ⟨k2, rfl, ?_⟩
          simp only [List.length_cons] at hlt
          omega

theorem mergeObjectSyncGo_nil (st : ParseStatusValue) (acc : JsObj) :
    mergeObjectSyncGo st acc [] = (st, some acc) := rfl

/-- A pair whose key or value is `INVALID` makes the `mergeObjectSync` loop
exit through `return INVALID` without touching the tracker. -/
theorem mergeObjectSyncGo_cons_aborting (st : ParseStatusValue) (acc : JsObj)
    (p : ObjectPair) (rest : List ObjectPair)
    (h : isAborted p.key = true ∨ isAborted p.value = true) :
    mergeObjectSyncGo st acc (p :: rest) = (st, none) := by
  obtain ⟨pk, pv, pa⟩ := p
  cases pk <;> cases pv <;> simp_all <;> rfl

/-- A pair with both sides usable runs the loop body: two conditional
`status.dirty()` calls, then the guarded write. -/
theorem mergeObjectSyncGo_cons_live (st : ParseStatusValue) (acc : JsObj)
    (p : ObjectPair) (rest : List ObjectPair) (k : String) (v : JVal)
    (hk : p.key.payload = some k) (hv : p.value.payload = some v) :
    mergeObjectSyncGo st acc (p :: rest) =
      mergeObjectSyncGo (objTrackStep st p) (writeStep acc k v p.alwaysSet) rest := by
  obtain ⟨pk, pv, pa⟩ := p
  cases pk <;> cases pv <;>
    simp_all [SyncParseReturnType.payload, objTrackStep] <;> rfl

/-- When no pair has an `INVALID` side, the `mergeObjectSync` loop runs to
completion, folding the tracker updates and the guarded writes in pair
order. -/
theorem mergeObjectSyncGo_clean (ps : List ObjectPair) :
    ∀ (st : ParseStatusValue) (acc : JsObj),
    (∀ q ∈ ps, isAborted q.key = false ∧ isAborted q.value = false) →
    mergeObjectSyncGo st acc ps =
      (ps.foldl objTrackStep st, some (ps.foldl objWriteFold acc)) := by
  induction ps with
  | nil => intro st acc _; simp [mergeObjectSyncGo_nil]
  | cons p rest ih =>
    intro st acc h
    obtain ⟨hpk, hpv⟩ := h p (by simp)
    obtain ⟨k, hk⟩ : ∃ k, p.key.payload = some k := by
      cases hp : p.key <;> simp_all [isAborted, SyncParseReturnType.status]
    obtain ⟨v, hv⟩ : ∃ v, p.value.payload = some v := by
      cases hp : p.value <;> simp_all [isAborted, SyncParseReturnType.status]
    rw [mergeObjectSyncGo_cons_live st acc p rest k v hk hv]
    rw [ih (objTrackStep st p) (writeStep acc k v p.alwaysSet)
      (fun q hq => h q (by simp [hq]))]
    simp [objWriteFold, hk, hv]

/-- A pair with an `INVALID` side anywhere in the list makes `mergeObjectSync`
exit through `return INVALID` within the prefix that ends at that pair: the
pairs after it are never examined, and the loop result is `none`. -/
theorem mergeObjectSyncGo_abort (pre : List ObjectPair) :
    ∀ (post : List ObjectPair) (st : ParseStatusValue) (acc : JsObj) (p : ObjectPair),
    (isAborted p.key = true ∨ isAborted p.value = true) →
    mergeObjectSyncGo st acc (pre ++ p :: post) = mergeObjectSyncGo st acc (pre ++ [p]) ∧
      (mergeObjectSyncGo st acc (pre ++ p :: post)).2 = none := by
  induction pre with
  | nil =>
    intro post st acc p hp
    rw [List.nil_append, List.nil_append, mergeObjectSyncGo_cons_aborting st acc p post hp,
      mergeObjectSyncGo_cons_aborting st acc p [] hp]
    exact ⟨rfl, rfl⟩
  | cons q pre2 ih =>
    intro post st acc p hp
    by_cases hq : isAborted q.key = true ∨ isAborted q.value = true
    · rw [List.cons_append, List.cons_append,
        mergeObjectSyncGo_cons_aborting st acc q (pre2 ++ p :: post) hq,
        mergeObjectSyncGo_cons_aborting st acc q (pre2 ++ [p]) hq]
      exact ⟨rfl, rfl⟩
    · push_neg at hq
      obtain ⟨hqk, hqv⟩ := hq
      replace hqk : isAborted q.key = false := by simpa using hqk
      replace hqv : isAborted q.value = false := by simpa using hqv
      obtain ⟨k, hk⟩ : ∃ k, q.key.payload = some k := by
        cases hx : q.key <;> simp_all [isAborted, SyncParseReturnType.status]
      obtain ⟨v, hv⟩ : ∃ v, q.value.payload = some v := by
        cases hx : q.value <;> simp_all [isAborted, SyncParseReturnType.status]
      rw [List.cons_append, List.cons_append,
        mergeObjectSyncGo_cons_live st acc q (pre2 ++ p :: post) k v hk hv,
        mergeObjectSyncGo_cons_live st acc q (pre2 ++ [p]) k v hk hv]
      exact ih post (objTrackStep st q) (writeStep acc k v q.alwaysSet) p hp

/-- Prefix pairs all usable, then an `INVALID`-sided pair: the loop keeps the
prefix's tracker updates and exits with `none`. -/
theorem mergeObjectSyncGo_clean_abort (pre : List ObjectPair) :
    ∀ (post : List ObjectPair) (st : ParseStatusValue) (acc : JsObj) (p : ObjectPair),
    (∀ q ∈ pre, isAborted q.key = false ∧ isAborted q.value = false) →
    (isAborted p.key = true ∨ isAborted p.value = true) →
    mergeObjectSyncGo st acc (pre ++ p :: post) = (pre.foldl objTrackStep st, none) := by
  induction pre with
  | nil =>
    intro post st acc p _ hp
    rw [List.nil_append, mergeObjectSyncGo_cons_aborting st acc p post hp]
    rfl
  | cons q pre2 ih =>
    intro post st acc p h hp
    obtain ⟨hqk, hqv⟩ := h q (by simp)
    obtain ⟨k, hk⟩ : ∃ k, q.key.payload = some k := by
      cases hx : q.key <;> simp_all [isAborted, SyncParseReturnType.status]
    obtain ⟨v, hv⟩ : ∃ v, q.value.payload = some v := by
      cases hx : q.value <;> simp_all [isAborted, SyncParseReturnType.status]
    rw [List.cons_append, mergeObjectSyncGo_cons_live st acc q (pre2 ++ p :: post) k v hk hv]
    rw [ih post (objTrackStep st q) (writeStep acc k v q.alwaysSet) p
      (fun r hr => h r (by simp [hr])) hp]
    simp

theorem lookupKey_setKey_self (o : JsObj) (k : String) (v : JVal) :
    lookupKey (setKey o k v) k = some v := by
  induction o with
  | nil => simp [setKey, lookupKey]
  | cons e rest ih =>
    obtain ⟨k0, v0⟩ := e
    by_cases h0 : k0 = k
    · subst h0
      simp [setKey, lookupKey]
    · simp [setKey, lookupKey, h0, ih]

theorem lookupKey_setKey_ne (o : JsObj) (k k2 : String) (v : JVal) (h : k2 ≠ k) :
    lookupKey (setKey o k v) k2 = lookupKey o k2 := by
  induction o with
  | nil => simp only [setKey, lookupKey, if_neg (Ne.symm h)]
  | cons e rest ih =>
    obtain ⟨k0, v0⟩ := e
    by_cases h0 : k0 = k
    · subst h0
      simp only [setKey, if_pos rfl, lookupKey, if_neg (Ne.symm h)]
    · simp only [setKey, if_neg h0, lookupKey, ih]

theorem hasKey_setKey (o : JsObj) (k k2 : String) (v : JVal) :
    hasKey (setKey o k v) k2 = true ↔ (k2 = k ∨ hasKey o k2 = true) := by
  by_cases h : k2 = k
  · subst h
    simp [hasKey, lookupKey_setKey_self]
  · simp [hasKey, lookupKey_setKey_ne o k k2 v h, h]

/-- The guarded write never creates a `"__proto__"` own property. -/
theorem lookupKey_writeStep_proto (o : JsObj) (k : String) (v : JVal) (a : Bool) :
    lookupKey (writeStep o k v a) "__proto__" = lookupKey o "__proto__" := by
  unfold writeStep
  by_cases hk : k ≠ "__proto__" ∧ (v.isSome = true ∨ a = true)
  · rw [if_pos hk, lookupKey_setKey_ne o k "__proto__" v (fun hh => hk.1 hh.symm)]
  · rw [if_neg hk]

theorem hasKey_writeStep (o : JsObj) (k k2 : String) (v : JVal) (a : Bool) :
    hasKey (writeStep o k v a) k2 = true ↔
      (hasKey o k2 = true ∨ (k2 = k ∧ k ≠ "__proto__" ∧ (v.isSome = true ∨ a = true))) := by
  unfold writeStep
  by_cases hk : k ≠ "__proto__" ∧ (v.isSome = true ∨ a = true)
  · rw [if_pos hk, hasKey_setKey]
    constructor
    · rintro (rfl | h)
      · exact Or.inr ⟨rfl, hk⟩
      · exact Or.inl h
    · rintro (h | ⟨rfl, _⟩)
      · exact Or.inr h
      · exact Or.inl rfl

  · rw [if_neg hk]
    constructor
    · exact Or.inl
    · rintro (h | ⟨rfl, h2, h3⟩)
      · exact h
      · exact absurd ⟨h2, h3⟩ hk

/-- The `"__proto__"`-freedom invariant is preserved by the whole
`mergeObjectSync` loop. -/
theorem mergeObjectSyncGo_proto (ps : List ObjectPair) :
    ∀ (st : ParseStatusValue) (acc : JsObj) (o : JsObj),
    lookupKey acc "__proto__" = none →
    (mergeObjectSyncGo st acc ps).2 = some o →
    lookupKey o "__proto__" = none := by
  induction ps with
  | nil =>
    intro st acc o hacc ho
    rw [mergeObjectSyncGo_nil] at ho
    simp only [Option.some.injEq] at ho
    rw [← ho]
    exact hacc
  | cons p rest ih =>
    intro st acc o hacc ho
    by_cases hp : isAborted p.key = true ∨ isAborted p.value = true
    · rw [mergeObjectSyncGo_cons_aborting st acc p rest hp] at ho
      simp at ho
    · push_neg at hp
      obtain ⟨hpk, hpv⟩ := hp
      obtain ⟨k, hk⟩ : ∃ k, p.key.payload = some k := by
        cases hx : p.key <;> simp_all [isAborted, SyncParseReturnType.status]
      obtain ⟨v, hv⟩ : ∃ v, p.value.payload = some v := by
        cases hx : p.value <;> simp_all [isAborted, SyncParseReturnType.status]
      rw [mergeObjectSyncGo_cons_live st acc p rest k v hk hv] at ho
      exact ih (objTrackStep st p) (writeStep acc k v p.alwaysSet) o
        (by rw [lookupKey_writeStep_proto]; exact hacc) ho

/-- Key membership in the folded guarded writes, for pairs with no `INVALID`
side: a key is present in the final object iff it was present initially or
some pair writes it. -/
theorem hasKey_foldl_objWriteFold (ps : List ObjectPair) :
    ∀ (acc : JsObj) (k2 : String),
    (∀ q ∈ ps, isAborted q.key = false ∧ isAborted q.value = false) →
    (hasKey (ps.foldl objWriteFold acc) k2 = true ↔
      (hasKey acc k2 = true ∨
        ∃ p ∈ ps, p.key.payload = some k2 ∧ k2 ≠ "__proto__" ∧
          ((∃ n, p.value.payload = some (some n)) ∨ p.alwaysSet = true))) := by
  induction ps with
  | nil =>
    intro acc k2 _
    simp
  | cons p rest ih =>
    intro acc k2 h
    obtain ⟨hpk, hpv⟩ := h p (by simp)
    obtain ⟨k, hk⟩ : ∃ k, p.key.payload = some k := by
      cases hx : p.key <;> simp_all [isAborted, SyncParseReturnType.status]
    obtain ⟨v, hv⟩ : ∃ v, p.value.payload = some v := by
      cases hx : p.value <;> simp_all [isAborted, SyncParseReturnType.status]
    have hfold : (p :: rest).foldl objWriteFold acc =
        rest.foldl objWriteFold (writeStep acc k v p.alwaysSet) := by
      simp [objWriteFold, hk, hv]
    rw [hfold, ih (writeStep acc k v p.alwaysSet) k2 (fun q hq => h q (by simp [hq]))]
    rw [hasKey_writeStep]
    constructor
    · rintro ((h1 | ⟨rfl, hne, hva⟩) | ⟨q, hq, hq1, hq2, hq3⟩)
      · exact Or.inl h1
      · refine Or.inr ⟨p, by simp, hk, hne, ?_⟩
        rcases hva with hv1 | hv2
        · exact Or.inl (by
            obtain ⟨n, hn⟩ := Option.isSome_iff_exists.mp hv1
            exact ⟨n, by rw [hv, hn]⟩)
        · exact Or.inr hv2
      · exact Or.inr ⟨q, by simp [hq], hq1, hq2, hq3⟩
    · rintro (h1 | ⟨q, hq, hq1, hq2, hq3⟩)
      · exact Or.inl (Or.inl h1)
      · rcases List.mem_cons.mp hq with rfl | hq4
        · rw [hk] at hq1
          simp only [Option.some.injEq] at hq1
          subst hq1
          refine Or.inl (Or.inr ⟨rfl, hq2, ?_⟩)
          rcases hq3 with ⟨n, hn⟩ | ha
          · rw [hv] at hn
            simp only [Option.some.injEq] at hn
            exact Or.inl (by rw [hn]; rfl)
          · exact Or.inr ha
        · exact Or.inr ⟨q, hq4, hq1, hq2, hq3⟩

theorem mergeObjectAsyncGo_nil (emitted : List Nat) (syncPairs : List ObjectPair) :
    mergeObjectAsyncGo emitted syncPairs [] = (emitted, syncPairs) := rfl

theorem mergeObjectAsyncGo_cons (emitted : List Nat) (syncPairs : List ObjectPair)
    (p : AsyncObjectPair) (rest : List AsyncObjectPair) :
    mergeObjectAsyncGo emitted syncPairs (p :: rest) =
      mergeObjectAsyncGo (emitted ++ p.key.emits ++ p.value.emits)
        (syncPairs ++ [⟨p.key.result, p.value.result, false⟩]) rest := rfl

/-- Closed form of the sequential-await loop: the trace is the concatenation
of each pair's key trace then value trace, in pair order, and the resolved
pairs are the awaited results with no `alwaysSet` property. -/
theorem mergeObjectAsyncGo_spec (ps : List AsyncObjectPair) :
    ∀ (emitted : List Nat) (syncPairs : List ObjectPair),
    mergeObjectAsyncGo emitted syncPairs ps =
      (emitted ++ ps.foldr (fun p acc => p.key.emits ++ p.value.emits ++ acc) [],
        syncPairs ++ ps.map (fun p => ⟨p.key.result, p.value.result, false⟩)) := by
  induction ps with
  | nil =>
    intro emitted syncPairs
    simp [mergeObjectAsyncGo_nil]
  | cons p rest ih =>
    intro emitted syncPairs
    rw [mergeObjectAsyncGo_cons, ih]
    simp

theorem ParseStatus_abort_eq (s : ParseStatusValue) :
    ParseStatus.abort s = ParseStatusValue.aborted := by
  cases s <;> rfl

theorem runOps_aborted (ops : List TrackerOp) :
    runOps ops ParseStatusValue.aborted = ParseStatusValue.aborted := by
  induction ops with
  | nil => rfl
  | cons op rest ih => cases op <;> simpa [runOps, ParseStatus.dirty, ParseStatus.abort] using ih

/-! Claim theorems. -/

/-- C2 counterexample: the source's "is succeeded" predicate `isValid` returns
`false` on a partial (dirty) result, contradicting the claim that it is true
for both ok and partial results. -/
theorem isValid_dirty_false_cex :
    isValid (SyncParseReturnType.dirty (0 : Nat)) = false := by decide

/-- C2 (amended): `isValid` returns `true` exactly for ok (status `"valid"`)
results; it returns `false` for partial (dirty) results and for the failed
result. -/
theorem isValid_true_iff_ok :
    (∀ (V : Type) (v : V), isValid (SyncParseReturnType.ok v) = true) ∧
    (∀ (V : Type) (v : V), isValid (SyncParseReturnType.dirty v) = false) ∧
    (∀ (V : Type), isValid (SyncParseReturnType.invalid : SyncParseReturnType V) = false) ∧
    (∀ (V : Type) (x : SyncParseReturnType V),
      isValid x = true ↔ ∃ v, x = SyncParseReturnType.ok v) := by
  refine ⟨fun V v => rfl, fun V v => rfl, fun V => rfl, fun V x => ?_⟩
  cases x <;> simp [isValid, SyncParseReturnType.status]

/-- C9: the status tracker is monotone along valid < dirty < aborted:
`dirty()` turns valid into dirty and is a no-op on dirty and aborted;
`abort()` sends every state to aborted and is idempotent; and after any call
sequence containing `abort()` the state is aborted (later `dirty()` calls
change nothing). -/
theorem parseStatus_monotone :
    (ParseStatus.dirty ParseStatusValue.valid = ParseStatusValue.dirty ∧
      ParseStatus.dirty ParseStatusValue.dirty = ParseStatusValue.dirty ∧
      ParseStatus.dirty ParseStatusValue.aborted = ParseStatusValue.aborted) ∧
    (∀ s, ParseStatus.abort s = ParseStatusValue.aborted) ∧
    (∀ s, ParseStatus.abort (ParseStatus.abort s) = ParseStatus.abort s) ∧
    (∀ s, ParseStatus.dirty (ParseStatus.abort s) = ParseStatus.abort s) ∧
    (∀ (ops1 ops2 : List TrackerOp) (s : ParseStatusValue),
      runOps (ops1 ++ TrackerOp.abortOp :: ops2) s = ParseStatusValue.aborted) := by
  refine ⟨⟨rfl, rfl, rfl⟩, ParseStatus_abort_eq,
    fun s => by rw [ParseStatus_abort_eq, ParseStatus_abort_eq s],
    fun s => by rw [ParseStatus_abort_eq s]; rfl, ?_⟩
  intro ops1 ops2 s
  induction ops1 generalizing s with
  | nil =>
    rw [List.nil_append]
    show runOps ops2 (ParseStatus.abort s) = ParseStatusValue.aborted
    rw [ParseStatus_abort_eq s]
    exact runOps_aborted ops2
  | cons op rest ih =>
    cases op with
    | dirtyOp => exact ih (ParseStatus.dirty s)
    | abortOp => exact ih (ParseStatus.abort s)

/-- C3 counterexample: `mergeObjectAsync` does not pass a pair's `alwaysSet`
flag through to `mergeObjectSync` — on a pair with an absent value and
`alwaysSet` set, delegating with the flag kept would write the key, but
`mergeObjectAsync` returns the object without it. -/
theorem mergeObjectAsync_drops_alwaysSet_cex :
    (mergeObjectAsync ParseStatusValue.valid
        [⟨⟨[], SyncParseReturnType.ok "a"⟩, ⟨[], SyncParseReturnType.ok none⟩, true⟩]).2 ≠
      mergeObjectSync ParseStatusValue.valid
        [⟨SyncParseReturnType.ok "a", SyncParseReturnType.ok none, true⟩] := by decide

/-- C3 (amended): `mergeObjectAsync` awaits each pair's key and then its value
sequentially, in pair order, and returns exactly what `mergeObjectSync`
returns on the list of resolved pairs — with each pair's `alwaysSet` flag
dropped (the resolved pairs carry no `alwaysSet`, i.e. it is treated as
unset). -/
theorem mergeObjectAsync_eq_sync_without_alwaysSet (st : ParseStatusValue)
    (pairs : List AsyncObjectPair) :
    mergeObjectAsync st pairs =
      (pairs.foldr (fun p acc => p.key.emits ++ p.value.emits ++ acc) [],
        mergeObjectSync st
          (pairs.map (fun p => ⟨p.key.result, p.value.result, false⟩))) := by
  unfold mergeObjectAsync
  rw [mergeObjectAsyncGo_spec pairs [] []]
  simp

/-- C1: for every tracker state and list of input pairs, whenever
`mergeObjectSync` returns an object at all, that object has no own property
named `"__proto__"`: pairs whose resolved key is `"__proto__"` are silently
dropped, whatever their status or `alwaysSet` flag. -/
theorem mergeObjectSync_no_proto_key (st : ParseStatusValue) (pairs : List ObjectPair)
    (o : JsObj) (h : (mergeObjectSync st pairs).2.value = some o) :
    lookupKey o "__proto__" = none := by
  unfold mergeObjectSync at h
  cases hgo : mergeObjectSyncGo st [] pairs with
  | mk st2 res =>
    rw [hgo] at h
    cases res with
    | none => simp at h
    | some fo =>
      simp only [Option.some.injEq] at h
      rw [← h]
      exact mergeObjectSyncGo_proto pairs st [] fo rfl (by rw [hgo])

theorem mergeObjectSync_no_proto_key_witness :
    (mergeObjectSync ParseStatusValue.valid
        [⟨SyncParseReturnType.ok "__proto__", SyncParseReturnType.ok (some 1), true⟩,
          ⟨SyncParseReturnType.ok "a", SyncParseReturnType.ok (some 2), false⟩]).2.value =
      some [("a", some 2)] ∧
    lookupKey [("a", some 2)] "__proto__" = none :=
  ⟨by decide,
    mergeObjectSync_no_proto_key ParseStatusValue.valid
      [⟨SyncParseReturnType.ok "__proto__", SyncParseReturnType.ok (some 1), true⟩,
        ⟨SyncParseReturnType.ok "a", SyncParseReturnType.ok (some 2), false⟩]
      [("a", some 2)] (by decide)⟩

/-- C6: `mergeObjectSync` iterates its pairs in order and, at a pair whose key
result or value result is failed, returns the failed result (status aborted,
no value) without examining any later pair; and when no pair has a failed
side it returns an object, never the failed result. -/
theorem mergeObjectSync_short_circuit :
    (∀ (st : ParseStatusValue) (pre post : List ObjectPair) (p : ObjectPair),
      (isAborted p.key = true ∨ isAborted p.value = true) →
      mergeObjectSync st (pre ++ p :: post) = mergeObjectSync st (pre ++ [p]) ∧
        (mergeObjectSync st (pre ++ p :: post)).2 =
          MergeResult.mk ParseStatusValue.aborted none) ∧
    (∀ (st : ParseStatusValue) (pairs : List ObjectPair),
      (∀ q ∈ pairs, isAborted q.key = false ∧ isAborted q.value = false) →
      ∃ o, (mergeObjectSync st pairs).2.value = some o) := by
  constructor
  · intro st pre post p hp
    have h1 := mergeObjectSyncGo_abort pre post st [] p hp
    have h2 := mergeObjectSyncGo_abort pre [] st [] p hp
    unfold mergeObjectSync
    rw [h1.1]
    refine ⟨rfl, ?_⟩
    cases hgo : mergeObjectSyncGo st [] (pre ++ [p]) with
    | mk st2 res =>
      rw [hgo] at h2
      cases res with
      | none => rfl
      | some fo => simp at h2
  · intro st pairs h
    unfold mergeObjectSync
    rw [mergeObjectSyncGo_clean pairs st [] h]
    exact ⟨pairs.foldl objWriteFold [], rfl⟩

theorem mergeObjectSync_short_circuit_witness :
    ((mergeObjectSync ParseStatusValue.valid
        ([⟨SyncParseReturnType.ok "a", SyncParseReturnType.ok (some 1), false⟩] ++
          (⟨SyncParseReturnType.invalid, SyncParseReturnType.ok (some 2), false⟩ : ObjectPair) ::
            [⟨SyncParseReturnType.ok "b", SyncParseReturnType.ok (some 3), false⟩])).2 =
      MergeResult.mk ParseStatusValue.aborted none) ∧
    ∃ o, (mergeObjectSync ParseStatusValue.valid
        [⟨SyncParseReturnType.ok "a", SyncParseReturnType.ok (some 1), false⟩]).2.value = some o :=
  ⟨(mergeObjectSync_short_circuit.1 ParseStatusValue.valid
      [⟨SyncParseReturnType.ok "a", SyncParseReturnType.ok (some 1), false⟩]
      [⟨SyncParseReturnType.ok "b", SyncParseReturnType.ok (some 3), false⟩]
      ⟨SyncParseReturnType.invalid, SyncParseReturnType.ok (some 2), false⟩
      (Or.inl (by decide))).2,
    mergeObjectSync_short_circuit.2 ParseStatusValue.valid
      [⟨SyncParseReturnType.ok "a", SyncParseReturnType.ok (some 1), false⟩] (by decide)⟩

/-- C7: for runs of `mergeObjectSync` in which no pair aborts, a key appears
in the output object if and only if some pair resolves to that key, the key
is not `"__proto__"`, and either the pair's value is present (not the absent
sentinel `undefined`) or its `alwaysSet` flag is true.  In particular a pair
with an absent value is written exactly when `alwaysSet` is true. -/
theorem mergeObjectSync_key_written_iff (st : ParseStatusValue) (pairs : List ObjectPair)
    (h : ∀ q ∈ pairs, isAborted q.key = false ∧ isAborted q.value = false)
    (o : JsObj) (ho : (mergeObjectSync st pairs).2.value = some o) (k : String) :
    hasKey o k = true ↔
      ∃ p ∈ pairs, p.key.payload = some k ∧ k ≠ "__proto__" ∧
        ((∃ n, p.value.payload = some (some n)) ∨ p.alwaysSet = true) := by
  unfold mergeObjectSync at ho
  rw [mergeObjectSyncGo_clean pairs st [] h] at ho
  simp only [Option.some.injEq] at ho
  rw [← ho, hasKey_foldl_objWriteFold pairs [] k h]
  simp [hasKey, lookupKey]

theorem mergeObjectSync_key_written_iff_witness :
    hasKey [("a", (none : JVal)), ("c", some 5)] "a" = true :=
  (mergeObjectSync_key_written_iff ParseStatusValue.valid
      [⟨SyncParseReturnType.ok "a", SyncParseReturnType.ok none, true⟩,
        ⟨SyncParseReturnType.ok "b", SyncParseReturnType.ok none, false⟩,
        ⟨SyncParseReturnType.dirty "c", SyncParseReturnType.ok (some 5), false⟩]
      (by decide) [("a", none), ("c", some 5)] (by decide) "a").mpr
    ⟨⟨SyncParseReturnType.ok "a", SyncParseReturnType.ok none, true⟩, by decide,
      by decide, by decide, Or.inr rfl⟩

/-- Bridge: `mergeArray` with no `minLength`, when its loop completes. -/
theorem mergeArray_go_some_none {V : Type} (st : ParseStatusValue)
    (results : List (SyncParseReturnType V)) (sf : Option Nat) (st2 : ParseStatusValue)
    (b : Bool) (arr : List V)
    (hgo : mergeArrayGo st sf 0 results [] false = (st2, b, some arr)) :
    mergeArray st results sf none = (st2, MergeResult.mk st2 (some arr)) := by
  unfold mergeArray
  rw [hgo]

/-- Bridge: `mergeArray` with a `minLength`, when its loop completes. -/
theorem mergeArray_go_some_some {V : Type} (st : ParseStatusValue)
    (results : List (SyncParseReturnType V)) (sf : Option Nat) (mm : Nat)
    (st2 : ParseStatusValue) (b : Bool) (arr : List V)
    (hgo : mergeArrayGo st sf 0 results [] false = (st2, b, some arr)) :
    mergeArray st results sf (some mm) =
      if b = true ∧ mm ≠ 0 ∧ arr.length < mm
      then (st2, MergeResult.mk ParseStatusValue.aborted none)
      else (st2, MergeResult.mk st2 (some arr)) := by
  unfold mergeArray
  rw [hgo]

/-- Bridge: `mergeArray` when its loop exits through `return INVALID`. -/
theorem mergeArray_go_none {V : Type} (st : ParseStatusValue)
    (results : List (SyncParseReturnType V)) (sf m : Option Nat) (st2 : ParseStatusValue)
    (b : Bool) (hgo : mergeArrayGo st sf 0 results [] false = (st2, b, none)) :
    mergeArray st results sf m = (st2, MergeResult.mk ParseStatusValue.aborted none) := by
  unfold mergeArray
  rw [hgo]

/-- C4: a failed array element at an index with stripping disabled, or at an
index before `stripFrom`, makes `mergeArray` return the failed result, with
all elements after that point never examined; a failed element at an index at
or after `stripFrom` marks the tracker dirty and is omitted from the output
with no placeholder pushed. -/
theorem mergeArray_failed_element_cases (V : Type) :
    (∀ (st : ParseStatusValue) (pre post rest : List (SyncParseReturnType V))
        (sf m : Option Nat),
      (sf = none ∨ ∃ k, sf = some k ∧ pre.length < k) →
      mergeArray st ((pre ++ SyncParseReturnType.invalid :: post) ++ rest) sf m =
          mergeArray st (pre ++ SyncParseReturnType.invalid :: post) sf m ∧
        (mergeArray st (pre ++ SyncParseReturnType.invalid :: post) sf m).2 =
          MergeResult.mk ParseStatusValue.aborted none) ∧
    (∀ (st : ParseStatusValue) (rs : List (SyncParseReturnType V)) (k : Nat)
        (m : Option Nat),
      (∀ pre post, rs = pre ++ SyncParseReturnType.invalid :: post → k ≤ pre.length) →
      (mergeArray st rs (some k) m).1 = rs.foldl trackStep st ∧
        (∀ arr, (mergeArray st rs (some k) m).2.value = some arr →
          arr = rs.filterMap SyncParseReturnType.payload)) := by
  constructor
  · intro st pre post rest sf m hcond
    have habort : (mergeArrayGo st sf 0 (pre ++ SyncParseReturnType.invalid :: post)
        [] false).2.2 = none := by
      refine mergeArrayGo_abort pre post st sf 0 [] false ?_
      rcases hcond with rfl | ⟨k, rfl, hlt⟩
      · exact Or.inl rfl
      · exact Or.inr ⟨k, rfl, by omega⟩
    constructor
    · unfold mergeArray
      rw [mergeArrayGo_append (pre ++ SyncParseReturnType.invalid :: post) rest st sf 0
        [] false habort]
    · cases hgo : mergeArrayGo st sf 0 (pre ++ SyncParseReturnType.invalid :: post) [] false with
      | mk st2 br =>
        cases br with
        | mk b2 res =>
          rw [hgo] at habort
          simp only at habort
          subst habort
          rw [mergeArray_go_none st (pre ++ SyncParseReturnType.invalid :: post) sf m st2
            b2 hgo]
  · intro st rs k m hcond
    have hcomp := mergeArrayGo_complete rs st (some k) 0 [] false
      (fun pre post hpp => ⟨k, rfl, by have := hcond pre post hpp; omega⟩)
    cases m with
    | none =>
      rw [mergeArray_go_some_none st rs (some k) (rs.foldl trackStep st)
        (false || rs.any isAborted) ([] ++ rs.filterMap SyncParseReturnType.payload) hcomp]
      refine ⟨rfl, ?_⟩
      intro arr harr
      simp only [List.nil_append, Option.some.injEq] at harr
      exact harr.symm
    | some mm =>
      rw [mergeArray_go_some_some st rs (some k) mm (rs.foldl trackStep st)
        (false || rs.any isAborted) ([] ++ rs.filterMap SyncParseReturnType.payload) hcomp]
      by_cases hif : (false || rs.any isAborted) = true ∧ mm ≠ 0 ∧
          ([] ++ rs.filterMap SyncParseReturnType.payload).length < mm
      · rw [if_pos hif]
        refine ⟨rfl, ?_⟩
        intro arr harr
        simp at harr
      · rw [if_neg hif]
        refine ⟨rfl, ?_⟩
        intro arr harr
        simp only [List.nil_append, Option.some.injEq] at harr
        exact harr.symm

theorem mergeArray_failed_element_cases_witness :
    (mergeArray ParseStatusValue.valid
        (([SyncParseReturnType.ok (1 : Nat)] ++ SyncParseReturnType.invalid :: []) ++
          [SyncParseReturnType.ok 2]) none none =
      mergeArray ParseStatusValue.valid
        ([SyncParseReturnType.ok 1] ++ SyncParseReturnType.invalid :: []) none none) ∧
    ((mergeArray ParseStatusValue.valid
        ([SyncParseReturnType.ok (1 : Nat)] ++ SyncParseReturnType.invalid :: []) none none).2 =
      MergeResult.mk ParseStatusValue.aborted none) ∧
    ((mergeArray ParseStatusValue.valid
        [SyncParseReturnType.invalid, SyncParseReturnType.ok (1 : Nat)] (some 0) none).1 =
      [SyncParseReturnType.invalid, SyncParseReturnType.ok (1 : Nat)].foldl trackStep
        ParseStatusValue.valid) ∧
    [(1 : Nat)] = [SyncParseReturnType.invalid,
      SyncParseReturnType.ok (1 : Nat)].filterMap SyncParseReturnType.payload :=
  ⟨((mergeArray_failed_element_cases Nat).1 ParseStatusValue.valid [SyncParseReturnType.ok 1]
      [] [SyncParseReturnType.ok 2] none none (Or.inl rfl)).1,
    ((mergeArray_failed_element_cases Nat).1 ParseStatusValue.valid [SyncParseReturnType.ok 1]
      [] [SyncParseReturnType.ok 2] none none (Or.inl rfl)).2,
    ((mergeArray_failed_element_cases Nat).2 ParseStatusValue.valid
      [SyncParseReturnType.invalid, SyncParseReturnType.ok 1] 0 none
      (fun pre post hpp => Nat.zero_le pre.length)).1,
    ((mergeArray_failed_element_cases Nat).2 ParseStatusValue.valid
      [SyncParseReturnType.invalid, SyncParseReturnType.ok 1] 0 none
      (fun pre post hpp => Nat.zero_le pre.length)).2 [1] (by decide)⟩

/-- C5: whenever the `mergeArray` loop completes (every failed element falls
at or after the strip index), the merge fails exactly when an element was
stripped, a `minLength` is specified, and the assembled output is shorter
than it; otherwise the result carries the tracker's final status and the
assembled sequence. -/
theorem mergeArray_minLength_check (V : Type) (st : ParseStatusValue)
    (rs : List (SyncParseReturnType V)) (sf m : Option Nat)
    (h : ∀ pre post, rs = pre ++ SyncParseReturnType.invalid :: post →
        ∃ k, sf = some k ∧ k ≤ pre.length) :
    mergeArray st rs sf m =
      (rs.foldl trackStep st,
        if rs.any isAborted = true ∧
            minLengthSpecifiedBelow m (rs.filterMap SyncParseReturnType.payload).length = true
        then MergeResult.mk ParseStatusValue.aborted none
        else MergeResult.mk (rs.foldl trackStep st)
          (some (rs.filterMap SyncParseReturnType.payload))) := by
  have hcomp := mergeArrayGo_complete rs st sf 0 [] false (fun pre post hpp => by
    obtain ⟨k, hk, hle⟩ := h pre post hpp
    exact ⟨k, hk, by omega⟩)
  cases m with
  | none =>
    rw [mergeArray_go_some_none st rs sf (rs.foldl trackStep st) (false || rs.any isAborted)
      ([] ++ rs.filterMap SyncParseReturnType.payload) hcomp]
    congr 1
    rw [if_neg (fun hc => by simpa [minLengthSpecifiedBelow] using hc.2)]
    simp
  | some mm =>
    rw [mergeArray_go_some_some st rs sf mm (rs.foldl trackStep st)
      (false || rs.any isAborted) ([] ++ rs.filterMap SyncParseReturnType.payload) hcomp]
    simp only [Bool.false_or, List.nil_append]
    by_cases hstr : rs.any isAborted = true
    · by_cases hlen : (rs.filterMap SyncParseReturnType.payload).length < mm
      · rw [if_pos ⟨hstr, by omega, hlen⟩,
          if_pos ⟨hstr, by simpa [minLengthSpecifiedBelow] using hlen⟩]
      · rw [if_neg (fun hc => hlen hc.2.2),
          if_neg (fun hc => by
            have h2 := hc.2
            simp only [minLengthSpecifiedBelow, decide_eq_true_eq] at h2
            exact hlen h2)]
    · rw [if_neg (fun hc => hstr hc.1), if_neg (fun hc => hstr hc.1)]

theorem mergeArray_minLength_check_witness :
    mergeArray ParseStatusValue.valid
        [SyncParseReturnType.ok (5 : Nat), SyncParseReturnType.invalid] (some 1) (some 2) =
      (ParseStatusValue.dirty, MergeResult.mk ParseStatusValue.aborted none) := by
  rw [mergeArray_minLength_check Nat ParseStatusValue.valid
    [SyncParseReturnType.ok 5, SyncParseReturnType.invalid] (some 1) (some 2) ?_]
  · decide
  · intro pre post hpp
    refine ⟨1, rfl, ?_⟩
    cases pre with
    | nil => simp at hpp
    | cons q pre2 => simp [List.length_cons]

/-- C10: when a merge short-circuits to the failed result on a failed child,
the `dirty()` transitions already applied to the caller's tracker for earlier
children are kept, not rolled back: the tracker ends in the folded state of
the processed prefix.  For `mergeArray` this covers every short-circuit the
source can take: stripping disabled (`stripInvalidFrom = none`), or stripping
enabled with the aborting failed element before `stripFrom` (in which case
earlier failed elements covered by the strip policy were stripped, each
marking the tracker dirty, and those marks are kept too). -/
theorem merge_tracker_not_rolled_back :
    (∀ (V : Type) (st : ParseStatusValue) (pre rest : List (SyncParseReturnType V))
        (sf m : Option Nat),
      (∀ (p1 p2 : List (SyncParseReturnType V)),
          pre = p1 ++ SyncParseReturnType.invalid :: p2 →
          ∃ k, sf = some k ∧ k ≤ p1.length) →
      (sf = none ∨ ∃ k, sf = some k ∧ pre.length < k) →
      mergeArray st (pre ++ SyncParseReturnType.invalid :: rest) sf m =
        (pre.foldl trackStep st, MergeResult.mk ParseStatusValue.aborted none)) ∧
    (∀ (st : ParseStatusValue) (ps rest : List ObjectPair) (p : ObjectPair),
      (∀ q ∈ ps, isAborted q.key = false ∧ isAborted q.value = false) →
      (isAborted p.key = true ∨ isAborted p.value = true) →
      mergeObjectSync st (ps ++ p :: rest) =
        (ps.foldl objTrackStep st, MergeResult.mk ParseStatusValue.aborted none)) := by
  constructor
  · intro V st pre rest sf m h1 h2
    have hgo := mergeArrayGo_prefix_abort pre rest st sf 0 [] false
      (fun p1 p2 hpp => by
        obtain ⟨k, hk, hle⟩ := h1 p1 p2 hpp
        exact ⟨k, hk, by omega⟩)
      (by
        rcases h2 with rfl | ⟨k, rfl, hlt⟩
        · exact Or.inl rfl
        · exact Or.inr ⟨k, rfl, by omega⟩)
    rw [mergeArray_go_none st (pre ++ SyncParseReturnType.invalid :: rest) sf m
      (pre.foldl trackStep st) (false || pre.any isAborted) hgo]
  · intro st ps rest p h hp
    unfold mergeObjectSync
    rw [mergeObjectSyncGo_clean_abort ps rest st [] p h hp]

theorem merge_tracker_not_rolled_back_witness :
    (mergeArray ParseStatusValue.valid
        ([SyncParseReturnType.dirty (7 : Nat)] ++ SyncParseReturnType.invalid :: [])
        (some 5) none =
      (ParseStatusValue.dirty, MergeResult.mk ParseStatusValue.aborted none)) ∧
    (mergeArray ParseStatusValue.valid
        ([SyncParseReturnType.dirty (7 : Nat)] ++ SyncParseReturnType.invalid :: []) none none =
      (ParseStatusValue.dirty, MergeResult.mk ParseStatusValue.aborted none)) ∧
    (mergeObjectSync ParseStatusValue.valid
        ([⟨SyncParseReturnType.dirty "a", SyncParseReturnType.ok (some 1), false⟩] ++
          (⟨SyncParseReturnType.invalid, SyncParseReturnType.ok none, false⟩ : ObjectPair) ::
            []) =
      (ParseStatusValue.dirty, MergeResult.mk ParseStatusValue.aborted none)) := by
  refine ⟨?_, ?_, ?_⟩
  · rw [merge_tracker_not_rolled_back.1 Nat ParseStatusValue.valid
      [SyncParseReturnType.dirty 7] [] (some 5) none ?_ (Or.inr ⟨5, rfl, by decide⟩)]
    · decide
    · intro p1 p2 hpp
      cases p1 with
      | nil => simp at hpp
      | cons a p12 =>
        cases p12 with
        | nil => simp at hpp
        | cons a2 p13 => simp at hpp
  · rw [merge_tracker_not_rolled_back.1 Nat ParseStatusValue.valid
      [SyncParseReturnType.dirty 7] [] none none ?_ (Or.inl rfl)]
    · decide
    · intro p1 p2 hpp
      cases p1 with
      | nil => simp at hpp
      | cons a p12 =>
        cases p12 with
        | nil => simp at hpp
        | cons a2 p13 => simp at hpp
  · rw [merge_tracker_not_rolled_back.2 ParseStatusValue.valid
      [⟨SyncParseReturnType.dirty "a", SyncParseReturnType.ok (some 1), false⟩] []
      ⟨SyncParseReturnType.invalid, SyncParseReturnType.ok none, false⟩
      (by decide) (Or.inl (by decide))]
    decide

/-- C8: an explicit message on the raw issue data is used verbatim, skipping
policy resolution entirely; otherwise the installed policies run lowest
priority first, each receiving as `defaultError` the message built so far and
absent ones skipped — in particular, with a process-wide default policy `P1`
and a contextual policy `P2` installed (and no schema policy or override),
the final message is `P2`'s output and `P2`'s `defaultError` input is `P1`'s
output (whose own `defaultError` input is the empty string). -/
theorem makeIssue_message_resolution :
    (∀ (data : JVal) (path : ParsePath) (errorMaps : List (Option ZodErrorMap))
        (issueData : IssueData) (msg : String),
      issueData.message = some msg →
      (makeIssue data path errorMaps issueData).message = msg) ∧
    (∀ (P1 P2 : ZodErrorMap) (ctx : ParseContext) (issueData : IssueData),
      ctx.common.contextualErrorMap = some P2 →
      ctx.schemaErrorMap = none →
      issueData.message = none →
      (addIssueToContext none P1 ctx issueData).common.issues =
        ctx.common.issues ++
          [⟨issueData.code, ctx.path ++ issueData.path.getD [],
            (P2 ⟨issueData.code, ctx.path ++ issueData.path.getD [], none⟩
              ⟨ctx.data,
                (P1 ⟨issueData.code, ctx.path ++ issueData.path.getD [], none⟩
                  ⟨ctx.data, ""⟩).message⟩).message⟩]) := by
  constructor
  · intro data path errorMaps issueData msg h
    obtain ⟨code, pth, m0⟩ := issueData
    cases m0 with
    | none => simp at h
    | some mm =>
      have h2 : mm = msg := by simpa using h
      subst h2
      rfl
  · intro P1 P2 ctx issueData hctx hschema hmsg
    obtain ⟨⟨issues, cmap, casync, cstrict⟩, cpath, smap, cdata⟩ := ctx
    obtain ⟨code, pth, m0⟩ := issueData
    simp only at hctx hschema hmsg
    subst hctx
    subst hschema
    subst hmsg
    rfl

theorem makeIssue_message_resolution_witness :
    ((makeIssue (none : JVal) [] [some (fun _ _ => ⟨"Q"⟩)]
        ⟨3, none, some "explicit"⟩).message = "explicit") ∧
    (addIssueToContext none (fun _ _ => ⟨"P1"⟩)
        ⟨⟨[], some (fun _ c => ⟨c.defaultError ++ "+P2"⟩), false, false⟩, [], none, none⟩
        ⟨7, none, none⟩).common.issues = [⟨7, [], "P1+P2"⟩] := by
  constructor
  · exact makeIssue_message_resolution.1 none [] [some (fun _ _ => ⟨"Q"⟩)]
      ⟨3, none, some "explicit"⟩ "explicit" rfl
  · rw [makeIssue_message_resolution.2 (fun _ _ => ⟨"P1"⟩)
      (fun _ c => ⟨c.defaultError ++ "+P2"⟩)
      ⟨⟨[], some (fun _ c => ⟨c.defaultError ++ "+P2"⟩), false, false⟩, [], none, none⟩
      ⟨7, none, none⟩ rfl rfl rfl]
    rfl

end ParseUtil
